import Mathlib

/-!
Verification development for the Collabora standalone WOPI gateway.

The JavaScript sources are shallowly embedded as executable Lean
definitions:

* `Wopi`: the access-token codec (`utils/crypto.js`) and the WOPI route
  handlers (`routes/wopi.js`): PutFile, Lock / GetLock / RefreshLock /
  Unlock, PutRelative, RenameFile, DeleteFile.  The Postgres tables
  (`files`, `file_locks`, `file_versions`, `users`, `audit_log`) are
  embedded as lists of rows inside a `DB` record and each SQL statement
  becomes the corresponding pure list operation; the unique constraint
  on `file_locks.file_id` is the predicate `locksWF`.  The filesystem is
  an association list from storage paths to file contents.  AES
  encryption of the access token is modelled as the identity on the
  decoded payload (encrypt and decrypt with the same secret compose to
  the identity), `Date.now()` and `crypto.randomBytes` become explicit
  `now` / `nonce` parameters, and `uuidv4()` becomes an explicit
  `newUuid` parameter.
* `Ltpa`: the LTPA2 token service (`services/ltpa.js`): token content
  generation, `%`-splitting, DN parsing, username extraction and
  validation, over `List Char`.  The 3DES block cipher is modelled as
  the identity on the decrypted content; the plausibility check that
  `decryptToken` applies to the decrypted bytes is kept
  (`decryptPlausible`).  `JSON`-free string mangling (trim, split,
  indexOf, parseInt) is embedded character by character.
* `Ldap`: the decision structure of `services/ldap.js` `authenticate`:
  empty-password rejection, service bind, user search (the server's
  matching entries arrive as an explicit list, the code keeps only the
  first), user bind and principal construction.
-/

namespace Wopi

/-- Payload carried by a WOPI access token (utils/crypto.js,
`generateAccessToken`). -/
structure TokenPayload where
  fileId : String
  userId : String
  permissions : String
  timestamp : Int
  nonce : String
deriving Repr, DecidableEq

/-- Model of `generateAccessToken(fileId, userId, permissions)`: the AES
encryption and base64url wrapping round-trip, so a token is modelled by
its payload; `Date.now()` and the random nonce are parameters. -/
def generateAccessToken (fileId userId permissions : String) (now : Int) (nonce : String) :
    TokenPayload :=
  { fileId := fileId, userId := userId, permissions := permissions,
    timestamp := now, nonce := nonce }

/-- Token lifetime used by `verifyAccessToken`: 24 hours in milliseconds. -/
def tokenMaxAgeMs : Int := 24 * 60 * 60 * 1000

/-- Model of `verifyAccessToken(token)`: decrypt (identity in the model),
then reject when `Date.now() - payload.timestamp > maxAge`. -/
def verifyAccessToken (token : TokenPayload) (now : Int) : Option TokenPayload :=
  if now - token.timestamp > tokenMaxAgeMs then none else some token

/-- Row of the `files` table. -/
structure FileRow where
  id : String
  ownerId : String
  filename : String
  originalFilename : String
  mimeType : String
  size : Int
  storagePath : String
  version : Int
  isDeleted : Bool
  parentFolderId : Option String
deriving Repr, DecidableEq

/-- Row of the `file_locks` table (`file_id` is UNIQUE in the schema). -/
structure LockRow where
  fileId : String
  lockId : String
  lockedBy : String
  expiresAt : Int
deriving Repr, DecidableEq

/-- Row of the `file_versions` table. -/
structure VersionRow where
  fileId : String
  version : Int
  size : Int
  storagePath : String
  createdBy : String
deriving Repr, DecidableEq

/-- Row of the `users` table (only the column the WOPI routes touch). -/
structure UserRow where
  id : String
  storageUsed : Int
deriving Repr, DecidableEq

/-- Row of the `audit_log` table (details column omitted). -/
structure AuditRow where
  userId : String
  action : String
  resourceType : String
  resourceId : String
deriving Repr, DecidableEq

/-- Database plus storage filesystem state seen by the WOPI routes. -/
structure DB where
  users : List UserRow
  files : List FileRow
  locks : List LockRow
  versions : List VersionRow
  fs : List (String × String)
  audit : List AuditRow
deriving Repr, DecidableEq

/-- HTTP response observed by the WOPI client: status code plus the
headers and body fields the routes set. -/
structure WopiResponse where
  status : Nat
  lockHeader : Option String := none
  itemVersion : Option String := none
  validRelativeTarget : Option String := none
  name : Option String := none
  body : String := ""
deriving Repr, DecidableEq

/-- SELECT * FROM files WHERE id = $1 AND is_deleted = false, rows[0]. -/
def findFile (db : DB) (fileId : String) : Option FileRow :=
  db.files.find? (fun f => decide (f.id = fileId ∧ f.isDeleted = false))

/-- SELECT * FROM file_locks WHERE file_id = $1 AND expires_at > NOW(),
rows[0]. -/
def selectLiveLock (db : DB) (fileId : String) (now : Int) : Option LockRow :=
  db.locks.find? (fun l => decide (l.fileId = fileId ∧ now < l.expiresAt))

/-- Read of a path from the storage filesystem. -/
def fsRead (fs : List (String × String)) (p : String) : Option String :=
  (fs.find? (fun e => decide (e.1 = p))).map (fun e => e.2)

/-- Write of a path on the storage filesystem (`fs.writeFile` /
`fs.copyFile` target). -/
def fsWrite (fs : List (String × String)) (p v : String) : List (String × String) :=
  (p, v) :: fs.filter (fun e => decide (e.1 ≠ p))

/-- INSERT INTO file_locks ... ON CONFLICT (file_id) DO UPDATE. -/
def upsertLock (locks : List LockRow) (row : LockRow) : List LockRow :=
  if locks.any (fun l => decide (l.fileId = row.fileId)) then
    locks.map (fun l =>
      if l.fileId = row.fileId then
        { l with lockId := row.lockId, lockedBy := row.lockedBy, expiresAt := row.expiresAt }
      else l)
  else locks ++ [row]

/-- Lock lifetime: INTERVAL '30 minutes', in milliseconds. -/
def lockTtlMs : Int := 30 * 60 * 1000

/-- `handleLock(fileId, lockId, tokenData, res)` from routes/wopi.js. -/
def handleLock (db : DB) (now : Int) (fileId lockId : String) (td : TokenPayload) :
    DB × WopiResponse :=
  match selectLiveLock db fileId now with
  | some existing =>
    if existing.lockId = lockId then
      ({ db with locks := db.locks.map (fun l =>
            if l.fileId = fileId then { l with expiresAt := now + lockTtlMs } else l) },
       { status := 200, lockHeader := some lockId, body := "Lock refreshed" })
    else
      (db, { status := 409, lockHeader := some existing.lockId, body := "File already locked" })
  | none =>
    let newRow : LockRow :=
      { fileId := fileId, lockId := lockId, lockedBy := td.userId,
        expiresAt := now + lockTtlMs }
    ({ db with locks := upsertLock db.locks newRow },
     { status := 200, lockHeader := some lockId, body := "Locked" })

/-- `handleGetLock(fileId, res)` from routes/wopi.js. -/
def handleGetLock (db : DB) (now : Int) (fileId : String) : DB × WopiResponse :=
  match selectLiveLock db fileId now with
  | some l => (db, { status := 200, lockHeader := some l.lockId, body := "OK" })
  | none => (db, { status := 200, lockHeader := some "", body := "OK" })

/-- `handleRefreshLock(fileId, lockId, res)` from routes/wopi.js. -/
def handleRefreshLock (db : DB) (now : Int) (fileId lockId : String) : DB × WopiResponse :=
  match selectLiveLock db fileId now with
  | none => (db, { status := 409, lockHeader := some "", body := "No lock found" })
  | some existing =>
    if existing.lockId ≠ lockId then
      (db, { status := 409, lockHeader := some existing.lockId, body := "Lock mismatch" })
    else
      ({ db with locks := db.locks.map (fun l =>
            if l.fileId = fileId then { l with expiresAt := now + lockTtlMs } else l) },
       { status := 200, lockHeader := some lockId, body := "Lock refreshed" })

/-- `handleUnlock(fileId, lockId, res)` from routes/wopi.js.  Note the
SELECT here has no `expires_at > NOW()` filter in the source. -/
def handleUnlock (db : DB) (fileId lockId : String) : DB × WopiResponse :=
  match db.locks.find? (fun l => decide (l.fileId = fileId)) with
  | none => (db, { status := 200, lockHeader := some "", body := "No lock to remove" })
  | some existing =>
    if existing.lockId ≠ lockId then
      (db, { status := 409, lockHeader := some existing.lockId, body := "Lock mismatch" })
    else
      ({ db with locks := db.locks.filter (fun l => decide (l.fileId ≠ fileId)) },
       { status := 200, lockHeader := some "", body := "Unlocked" })

/-- `handleRename(fileId, newName, tokenData, res)` from routes/wopi.js.
An absent or empty requested name is rejected (JS falsiness); otherwise
the row is renamed unconditionally. -/
def handleRename (db : DB) (fileId : String) (newName : Option String) (td : TokenPayload) :
    DB × WopiResponse :=
  match newName with
  | none => (db, { status := 400, body := "New name required" })
  | some nm =>
    if nm = "" then (db, { status := 400, body := "New name required" })
    else
      ({ db with
          files := db.files.map (fun g =>
            if g.id = fileId then { g with originalFilename := nm } else g),
          audit := db.audit ++
            [{ userId := td.userId, action := "FILE_RENAME", resourceType := "file",
               resourceId := fileId }] },
       { status := 200, name := some nm })

/-- `handleDelete(fileId, tokenData, res)` from routes/wopi.js: marks the
row logically deleted unconditionally. -/
def handleDelete (db : DB) (fileId : String) (td : TokenPayload) : DB × WopiResponse :=
  ({ db with
      files := db.files.map (fun g =>
        if g.id = fileId then { g with isDeleted := true } else g),
      audit := db.audit ++
        [{ userId := td.userId, action := "FILE_DELETE", resourceType := "file",
           resourceId := fileId }] },
   { status := 200, body := "Deleted" })

/-- JS `str.replace(/\.[^/.]+$/, '')`: drop a final dot-extension. -/
def stripExtJS (s : String) : String :=
  let rev := s.data.reverse
  let suf := rev.takeWhile (fun c => decide (c ≠ '.' ∧ c ≠ '/'))
  if suf ≠ [] ∧ (rev.drop suf.length).head? = some '.' then
    String.mk ((rev.drop (suf.length + 1)).reverse)
  else s

/-- JS `path.extname` restricted to names without a path separator. -/
def extnameJS (s : String) : String :=
  let rev := s.data.reverse
  let suf := rev.takeWhile (fun c => decide (c ≠ '.'))
  if suf.length = rev.length then ""
  else if rev.length = suf.length + 1 then ""
  else String.mk ('.' :: suf.reverse)

/-- JS `targetName.replace(/[<>:"\/\\|?*]/g, '_')`. -/
def cleanFilename (s : String) : String :=
  String.mk (s.data.map (fun c =>
    if ['<', '>', ':', '"', '/', '\\', '|', '?', '*'].contains c then '_' else c))

/-- Extension-to-MIME table from `handlePutRelative`. -/
def mimeTypes : List (String × String) :=
  [("odt", "application/vnd.oasis.opendocument.text"),
   ("docx", "application/vnd.openxmlformats-officedocument.wordprocessingml.document"),
   ("doc", "application/msword"),
   ("rtf", "application/rtf"),
   ("txt", "text/plain"),
   ("pdf", "application/pdf"),
   ("ods", "application/vnd.oasis.opendocument.spreadsheet"),
   ("xlsx", "application/vnd.openxmlformats-officedocument.spreadsheetml.sheet"),
   ("xls", "application/vnd.ms-excel"),
   ("csv", "text/csv"),
   ("odp", "application/vnd.oasis.opendocument.presentation"),
   ("pptx", "application/vnd.openxmlformats-officedocument.presentationml.presentation"),
   ("ppt", "application/vnd.ms-powerpoint"),
   ("odg", "application/vnd.oasis.opendocument.graphics")]

/-- MIME type lookup with the octet-stream default. -/
def mimeFor (ext : String) : String :=
  ((mimeTypes.find? (fun p => decide (p.1 = ext))).map (fun p => p.2)).getD
    "application/octet-stream"

/-- `handlePutRelative(fileId, req, tokenData, res)` from routes/wopi.js.
Empty-string target headers are modelled as absent (JS falsiness); the
unused `x-wopi-size` header is omitted; `uuidv4()` is the `newFileId`
parameter.  Note the source checks no permission here. -/
def handlePutRelative (db : DB) (fileId : String) (td : TokenPayload)
    (suggestedTarget relativeTarget : Option String) (overwriteRelative : Bool)
    (body : String) (newFileId : String) : DB × WopiResponse :=
  match findFile db fileId with
  | none => (db, { status := 404, body := "Source file not found" })
  | some sourceFile =>
    let targetName? : Option String :=
      match relativeTarget with
      | some rt => some rt
      | none =>
        match suggestedTarget with
        | some st =>
          some (if st.startsWith "." then stripExtJS sourceFile.originalFilename ++ st else st)
        | none => none
    match targetName? with
    | none => (db, { status := 400, body := "No target filename specified" })
    | some tn0 =>
      let targetName := cleanFilename tn0
      let existing := db.files.find? (fun f => decide
        (f.ownerId = sourceFile.ownerId ∧ f.originalFilename = targetName ∧
         f.parentFolderId = sourceFile.parentFolderId ∧ f.isDeleted = false))
      if existing.isSome ∧ ¬ overwriteRelative then
        (db, { status := 409, validRelativeTarget := some targetName,
               body := "File already exists" })
      else
        let ext0 := (extnameJS targetName).drop 1
        let ext := if ext0 = "" then "odt" else ext0
        let storageFilename := newFileId ++ "." ++ ext
        let storagePath := sourceFile.ownerId ++ "/" ++ storageFilename
        let newSize : Int := body.length
        let files1 :=
          match existing with
          | some ex =>
            if overwriteRelative then
              db.files.map (fun g => if g.id = ex.id then { g with isDeleted := true } else g)
            else db.files
          | none => db.files
        let newFile : FileRow :=
          { id := newFileId, ownerId := sourceFile.ownerId, filename := storageFilename,
            originalFilename := targetName, mimeType := mimeFor ext, size := newSize,
            storagePath := storagePath, version := 1, isDeleted := false,
            parentFolderId := sourceFile.parentFolderId }
        ({ db with
            files := files1 ++ [newFile],
            fs := fsWrite db.fs storagePath body,
            users := db.users.map (fun u =>
              if u.id = sourceFile.ownerId then { u with storageUsed := u.storageUsed + newSize }
              else u),
            audit := db.audit ++
              [{ userId := td.userId, action := "FILE_SAVE_AS", resourceType := "file",
                 resourceId := newFileId }] },
         { status := 200, name := some targetName, body := "PutRelative ok" })

/-- Tail of the PutFile route after the lock check: snapshot the current
content into `file_versions`, overwrite the bytes, bump the version and
account storage. -/
def putFileWrite (db : DB) (fileId : String) (td : TokenPayload) (file : FileRow)
    (body : String) : DB × WopiResponse :=
  match fsRead db.fs file.storagePath with
  | none => (db, { status := 500, body := "Internal server error" })
  | some oldContent =>
    let versionPath := file.storagePath ++ ".v" ++ toString file.version
    let newSize : Int := body.length
    let newVersion := file.version + 1
    ({ db with
        fs := fsWrite (fsWrite db.fs versionPath oldContent) file.storagePath body,
        versions := db.versions ++
          [{ fileId := fileId, version := file.version, size := file.size,
             storagePath := versionPath, createdBy := td.userId }],
        files := db.files.map (fun g =>
          if g.id = fileId then { g with size := newSize, version := newVersion } else g),
        users := db.users.map (fun u =>
          if u.id = file.ownerId then { u with storageUsed := u.storageUsed + (newSize - file.size) }
          else u),
        audit := db.audit ++
          [{ userId := td.userId, action := "FILE_UPDATE", resourceType := "file",
             resourceId := fileId }] },
     { status := 200, itemVersion := some (toString newVersion), body := "File saved" })

/-- POST /wopi/files/:fileId/contents (PutFile) from routes/wopi.js. -/
def putFile (db : DB) (now : Int) (fileId : String) (accessToken : Option TokenPayload)
    (wopiLock : Option String) (body : String) : DB × WopiResponse :=
  match accessToken with
  | none => (db, { status := 401, body := "Access token required" })
  | some tok =>
    match verifyAccessToken tok now with
    | none => (db, { status := 401, body := "No edit permission" })
    | some td =>
      if td.permissions ≠ "edit" ∧ td.permissions ≠ "admin" then
        (db, { status := 401, body := "No edit permission" })
      else
        match findFile db fileId with
        | none => (db, { status := 404, body := "File not found" })
        | some file =>
          match selectLiveLock db fileId now with
          | some existing =>
            if wopiLock ≠ some existing.lockId then
              (db, { status := 409, lockHeader := some existing.lockId, body := "Lock mismatch" })
            else putFileWrite db fileId td file body
          | none => putFileWrite db fileId td file body

/-- Value of the X-WOPI-Override header. -/
inductive WopiOverride where
  | lockOp
  | getLockOp
  | refreshLockOp
  | unlockOp
  | putRelativeOp
  | renameFileOp
  | deleteOp
  | otherOp
deriving Repr, DecidableEq

/-- POST /wopi/files/:fileId (WOPI override dispatch) from
routes/wopi.js.  The lock-bearing headers are modelled as present
strings; `uuidv4()` is the `newUuid` parameter.  The source dispatches
on X-WOPI-Override after validating the token without consulting its
permission field. -/
def wopiPost (db : DB) (now : Int) (fileId : String) (accessToken : Option TokenPayload)
    (override : WopiOverride) (wopiLock : String) (requestedName : Option String)
    (suggestedTarget relativeTarget : Option String) (overwriteRelative : Bool)
    (body : String) (newUuid : String) : DB × WopiResponse :=
  match accessToken with
  | none => (db, { status := 401, body := "Access token required" })
  | some tok =>
    match verifyAccessToken tok now with
    | none => (db, { status := 401, body := "Invalid access token" })
    | some td =>
      match findFile db fileId with
      | none => (db, { status := 404, body := "File not found" })
      | some _file =>
        match override with
        | .lockOp => handleLock db now fileId wopiLock td
        | .getLockOp => handleGetLock db now fileId
        | .refreshLockOp => handleRefreshLock db now fileId wopiLock
        | .unlockOp => handleUnlock db fileId wopiLock
        | .putRelativeOp =>
          handlePutRelative db fileId td suggestedTarget relativeTarget overwriteRelative body
            newUuid
        | .renameFileOp => handleRename db fileId requestedName td
        | .deleteOp => handleDelete db fileId td
        | .otherOp => (db, { status := 400, body := "Unknown WOPI operation" })

/-- Schema constraint `file_id UUID UNIQUE` on `file_locks`: pairwise
distinct file ids. -/
def locksWF (locks : List LockRow) : Prop :=
  locks.Pairwise (fun a b => a.fileId ≠ b.fileId)

instance (locks : List LockRow) : Decidable (locksWF locks) := by
  unfold locksWF; infer_instance

end Wopi

namespace Ltpa

/-- NUL character stripped by `replace(/\0+$/, '')`. -/
def nulChar : Char := Char.ofNat 0

/-- Whitespace recognised by the model of JS `String.prototype.trim`. -/
def isJsSpace (c : Char) : Bool :=
  decide (c = ' ' ∨ c = '\t' ∨ c = '\n' ∨ c = '\r')

/-- Membership test for a single character. -/
def hasChar (c : Char) (l : List Char) : Bool :=
  l.any (fun a => decide (a = c))

/-- Removal of the trailing run of characters satisfying `p`. -/
def stripTrailing (p : Char → Bool) (l : List Char) : List Char :=
  (l.reverse.dropWhile p).reverse

/-- JS `trim()` on both ends. -/
def jsTrim (l : List Char) : List Char :=
  (stripTrailing isJsSpace l).dropWhile isJsSpace

/-- `content.replace(/\0+$/, '').trim()` from `parseTokenContent`. -/
def normalizeContent (l : List Char) : List Char :=
  jsTrim (stripTrailing (fun c => decide (c = nulChar)) l)

/-- JS `String.prototype.split(sep)` for a one-character separator. -/
def splitOnChar (c : Char) : List Char → List (List Char)
  | [] => [[]]
  | x :: xs =>
    match splitOnChar c xs with
    | [] => [[]]
    | h :: t => if x = c then [] :: h :: t else (x :: h) :: t

/-- Split at the first occurrence of `c`, as `indexOf` plus the two
`substring` calls; `none` when `c` does not occur. -/
def breakAtChar (c : Char) : List Char → Option (List Char × List Char)
  | [] => none
  | x :: xs =>
    if x = c then some ([], xs)
    else
      match breakAtChar c xs with
      | some p => some (x :: p.1, p.2)
      | none => none

/-- Decimal digit test, `'0' ≤ c ≤ '9'`. -/
def isDigitC (c : Char) : Bool :=
  decide (48 ≤ c.toNat ∧ c.toNat ≤ 57)

/-- Model of `parseInt(s, 10)` on the strings this service produces:
the leading digit run is evaluated, no digits meaning NaN (`none`). -/
def parseIntDec (l : List Char) : Option Nat :=
  let ds := l.takeWhile isDigitC
  if ds = [] then none
  else some (ds.foldl (fun a c => a * 10 + (c.toNat - 48)) 0)

/-- Decimal digit characters of a natural number, accumulator form; the
first argument is recursion fuel, always called with at least the number
itself. -/
def toDecimalAux : Nat → Nat → List Char → List Char
  | 0, _, acc => acc
  | fuel + 1, n, acc =>
    if n = 0 then acc
    else toDecimalAux fuel (n / 10) (Char.ofNat (48 + n % 10) :: acc)

/-- Decimal notation of a natural number, as produced by JS template
interpolation of an integer. -/
def toDecimal (n : Nat) : List Char :=
  if n = 0 then ['0'] else toDecimalAux (n + 1) n []

/-- Configuration slice of LTPAService used by generation, parsing and
validation. -/
structure LtpaConfig where
  realm : List Char
  tokenExpiration : Nat
  dominoUserFormat : List Char
deriving Repr, DecidableEq

/-- Default configuration: realm `defaultRealm`, expiration 7200
seconds, Domino user format `cn`. -/
def defaultLtpaConfig : LtpaConfig :=
  { realm := "defaultRealm".data, tokenExpiration := 7200, dominoUserFormat := "cn".data }

/-- Result of `parseTokenContent`. -/
structure LtpaParsed where
  username : List Char
  realm : List Char
  dn : List Char
  expireTime : Option Nat
  attributes : List (List Char × List Char)
  signature : List Char
deriving Repr, DecidableEq

/-- Principal returned by `validateToken`. -/
structure LtpaPrincipal where
  username : List Char
  realm : List Char
  dn : List Char
  attributes : List (List Char × List Char)
  expireTime : Option Nat
deriving Repr, DecidableEq

/-- Loop of `_extractUsernameFromDN` over Domino `/`-separated parts:
return the first `cn=` value when the configured format is `cn`. -/
def findDominoCn (fmt : List Char) : List (List Char) → Option (List Char)
  | [] => none
  | p :: ps =>
    match breakAtChar '=' p with
    | some kv =>
      if (jsTrim kv.1).map Char.toLower = "cn".data ∧ fmt = "cn".data then some (jsTrim kv.2)
      else findDominoCn fmt ps
    | none => findDominoCn fmt ps

/-- Loop of `_extractUsernameFromDN` over comma-separated RDNs driven by
the configured format. -/
def findByFormat (fmt : List Char) : List (List Char) → Option (List Char)
  | [] => none
  | r :: rs =>
    match breakAtChar '=' r with
    | some kv =>
      let key := (jsTrim kv.1).map Char.toLower
      let v := jsTrim kv.2
      if fmt = "cn".data ∧ key = "cn".data then some v
      else if fmt = "uid".data ∧ key = "uid".data then some v
      else if fmt = "shortname".data ∧ key = "uid".data then some v
      else if fmt = "email".data ∧ key = "mail".data then some v
      else findByFormat fmt rs
    | none => findByFormat fmt rs

/-- Fallback loop of `_extractUsernameFromDN`: first `cn` or `uid`
value. -/
def findCnOrUid : List (List Char) → Option (List Char)
  | [] => none
  | r :: rs =>
    match breakAtChar '=' r with
    | some kv =>
      let key := (jsTrim kv.1).map Char.toLower
      if key = "cn".data ∨ key = "uid".data then some (jsTrim kv.2) else findCnOrUid rs
    | none => findCnOrUid rs

/-- `_extractUsernameFromDN(dn)` from services/ltpa.js. -/
def extractUsernameFromDN (fmt : List Char) (dn : List Char) : List Char :=
  if dn = [] then []
  else if fmt = "dn".data then dn
  else if hasChar '/' dn && ! hasChar ',' dn then
    let parts := splitOnChar '/' dn
    match findDominoCn fmt parts with
    | some v => v
    | none =>
      match parts with
      | [] => dn
      | p0 :: _ =>
        match breakAtChar '=' p0 with
        | some kv => jsTrim kv.2
        | none => p0
  else
    let rdns := splitOnChar ',' dn
    match findByFormat fmt rdns with
    | some v => v
    | none =>
      match findCnOrUid rdns with
      | some v => v
      | none => dn

/-- Attribute block parsing: `$`-separated `key:value` pairs, pairs
without a colon skipped. -/
def parseAttrs (s : List Char) : List (List Char × List Char) :=
  (splitOnChar '$' s).filterMap (fun pair => breakAtChar ':' pair)

/-- User-part decomposition of `parseTokenContent`: username, realm, dn
and attributes. -/
def parseUserPart (fmt : List Char) (userPart : List Char) :
    List Char × List Char × List Char × List (List Char × List Char) :=
  if "u:user:".data.isPrefixOf userPart then
    let userInfo := userPart.drop 7
    let rd :=
      match breakAtChar '/' userInfo with
      | some p => (p.1, p.2)
      | none => (([] : List Char), userInfo)
    let da :=
      match breakAtChar '$' rd.2 with
      | some p => (p.1, parseAttrs p.2)
      | none => (rd.2, ([] : List (List Char × List Char)))
    (extractUsernameFromDN fmt da.1, rd.1, da.1, da.2)
  else if hasChar '=' userPart then
    (extractUsernameFromDN fmt userPart, [], userPart, [])
  else ([], [], [], [])

/-- `parseTokenContent(content)` from services/ltpa.js. -/
def parseTokenContent (cfg : LtpaConfig) (content : List Char) : Option LtpaParsed :=
  let c := normalizeContent content
  let parts := splitOnChar '%' c
  if parts.length < 2 then none
  else
    let q := parseUserPart cfg.dominoUserFormat (parts.headD [])
    some
      { username := q.1,
        realm := if q.2.1 = [] then cfg.realm else q.2.1,
        dn := q.2.2.1,
        expireTime := parseIntDec (parts.getD 1 []),
        attributes := q.2.2.2,
        signature := parts.getD 2 [] }

/-- Expiry test `Date.now() > expireTime`; a NaN expiry compares
false. -/
def ltpaIsExpired (now : Nat) (e : Option Nat) : Bool :=
  match e with
  | some t => decide (now > t)
  | none => false

/-- Plausibility check applied by `decryptToken` to the decrypted bytes
before returning them: `content.includes('%') &&
(content.includes('user:') || content.includes('='))`. -/
def decryptPlausible (content : List Char) : Bool :=
  hasChar '%' content && (decide ("user:".data <:+: content) || hasChar '=' content)

/-- `validateToken(token)` from services/ltpa.js over the decrypted
content (the cipher is the identity in the model, URL decoding
omitted).  The HMAC-SHA1 comparison only logs on mismatch, so it does
not appear in the accept/reject path. -/
def validateToken (cfg : LtpaConfig) (now : Nat) (content : List Char) :
    Option LtpaPrincipal :=
  if decryptPlausible content then
    match parseTokenContent cfg content with
    | none => none
    | some td =>
      if ltpaIsExpired now td.expireTime then none
      else
        some
          { username := td.username, realm := td.realm, dn := td.dn,
            attributes := td.attributes, expireTime := td.expireTime }
  else none

/-- JS `entries.map(([k, v]) => k + ':' + v).join('$')`. -/
def joinAttrs : List (List Char × List Char) → List Char
  | [] => []
  | [(k, v)] => k ++ ':' :: v
  | (k, v) :: rest => k ++ ':' :: v ++ '$' :: joinAttrs rest

/-- `generateToken(username, attributes)` from services/ltpa.js, down to
the content string handed to `encryptToken` (identity in the model);
`hmacSig` stands for the base64 HMAC-SHA1 signature function. -/
def generateContent (cfg : LtpaConfig) (now : Nat) (username : List Char)
    (attrs : List (List Char × List Char)) (hmacSig : List Char → List Char) : List Char :=
  let expireTime := now + cfg.tokenExpiration * 1000
  let base := "u:user:".data ++ cfg.realm ++ '/' :: username
  let withAttrs := if attrs = [] then base else base ++ '$' :: joinAttrs attrs
  let content := withAttrs ++ '%' :: toDecimal expireTime
  content ++ '%' :: hmacSig content

/-- Round trip `validateToken(generateToken(username, attrs))` at one
instant. -/
def validateGenerated (cfg : LtpaConfig) (now : Nat) (username : List Char)
    (attrs : List (List Char × List Char)) (hmacSig : List Char → List Char) :
    Option LtpaPrincipal :=
  validateToken cfg now (generateContent cfg now username attrs hmacSig)

end Ltpa

namespace Ldap

/-- Directory entry as normalised by `_parseEntry`: distinguished name
plus the resolved identity attributes. -/
structure LdapEntry where
  dn : String
  username : String
  email : Option String
  displayName : String
  memberOf : List String
deriving Repr, DecidableEq

/-- Principal assembled by `authenticate` on a successful user bind
(email fallback derivation omitted). -/
structure LdapPrincipal where
  username : String
  displayName : String
  role : String
  ldapDN : String
  groups : List String
deriving Repr, DecidableEq

/-- RFC 4515 escape of one character, as the chained `replace` calls of
`escapeLDAPFilter`. -/
def escapeChar (c : Char) : List Char :=
  if c = '\\' then ['\\', '5', 'c']
  else if c = '*' then ['\\', '2', 'a']
  else if c = '(' then ['\\', '2', '8']
  else if c = ')' then ['\\', '2', '9']
  else if c = Char.ofNat 0 then ['\\', '0', '0']
  else [c]

/-- `escapeLDAPFilter(value)` from services/ldap.js. -/
def escapeLDAPFilter (s : String) : String :=
  String.mk (s.data.foldr (fun c acc => escapeChar c ++ acc) [])

/-- Lower-casing of a string. -/
def strToLower (s : String) : String :=
  String.mk (s.data.map Char.toLower)

/-- JS `hay.includes(needle)`. -/
def strIncludes (needle hay : String) : Bool :=
  decide (needle.data <:+: hay.data)

/-- `searchUser`: the server streams the entries matching the filter;
the callback keeps only the first (`entriesFound === 1`), and more than
one entry only logs a warning. -/
def searchUser (entries : List LdapEntry) : Option LdapEntry :=
  entries.head?

/-- Decision structure of `authenticate(username, password)`: reject an
empty password, perform the service bind (failure throws, modelled as
`Except.error`), search, then bind as the found entry's DN.  `bindOk`
models the directory's password check for a DN, `entries` the matches
the server returns for the escaped-username filter. -/
def authenticate (adminGroup : String) (serviceBindOk : Bool)
    (bindOk : String → String → Bool) (entries : List LdapEntry) (password : String) :
    Except String (Option LdapPrincipal) :=
  if password = "" then .ok none
  else if ! serviceBindOk then .error "service bind failed"
  else
    match searchUser entries with
    | none => .ok none
    | some user =>
      if bindOk user.dn password then
        let isAdmin := user.memberOf.any (fun g =>
          strIncludes (strToLower adminGroup) (strToLower g))
        .ok (some
          { username := user.username, displayName := user.displayName,
            role := if isAdmin then "admin" else "user", ldapDN := user.dn,
            groups := user.memberOf })
      else .ok none

end Ldap

namespace Wopi

/-- Sample database: one user `u1` owning one stored file `f1`. -/
def sampleDb : DB :=
  { users := [{ id := "u1", storageUsed := 3 }],
    files := [{ id := "f1", ownerId := "u1", filename := "f1.odt",
                originalFilename := "report.odt",
                mimeType := "application/vnd.oasis.opendocument.text", size := 3,
                storagePath := "u1/f1.odt", version := 1, isDeleted := false,
                parentFolderId := none }],
    locks := [], versions := [], fs := [("u1/f1.odt", "abc")], audit := [] }

/-- Sample database with an expired lock row (`expiresAt = 100`) for
file `f1`. -/
def sampleDbExpiredLock : DB :=
  { sampleDb with
    locks := [{ fileId := "f1", lockId := "xyz", lockedBy := "u1", expiresAt := 100 }] }

/-- Sample database with a live lock row (`expiresAt = 1000`, observed
at `now = 0`) for file `f1`. -/
def sampleDbLiveLock : DB :=
  { sampleDb with
    locks := [{ fileId := "f1", lockId := "abc", lockedBy := "u1", expiresAt := 1000 }] }

/-- The live lock row of `sampleDbLiveLock`. -/
def sampleLiveRow : LockRow :=
  { fileId := "f1", lockId := "abc", lockedBy := "u1", expiresAt := 1000 }

/-- View-permission access token for `f1` held by the owner `u1`. -/
def sampleViewToken : TokenPayload := generateAccessToken "f1" "u1" "view" 0 "n0"

/-- Edit-permission access token for `f1` held by `u2`, who is not the
owner of `f1`. -/
def sampleEditTokenU2 : TokenPayload := generateAccessToken "f1" "u2" "edit" 0 "n1"

end Wopi

namespace Wopi

/-- Mapping a fileId-preserving function over the lock table preserves
the uniqueness constraint. -/
theorem locksWF_map (locks : List LockRow) (f : LockRow → LockRow)
    (hf : ∀ l, (f l).fileId = l.fileId) (h : locksWF locks) : locksWF (locks.map f) := by
  unfold locksWF at *
  rw [List.pairwise_map]
  exact h.imp (fun {a b} hab => by rw [hf a, hf b]; exact hab)

/-- The ON CONFLICT upsert preserves the uniqueness constraint. -/
theorem locksWF_upsert (locks : List LockRow) (row : LockRow) (h : locksWF locks) :
    locksWF (upsertLock locks row) := by
  unfold upsertLock
  split
  · exact locksWF_map locks _ (fun l => by split <;> rfl) h
  · next hany =>
    unfold locksWF at *
    rw [List.pairwise_append]
    refine ⟨h, List.pairwise_singleton _ _, ?_⟩
    intro a ha b hb
    simp only [List.mem_singleton] at hb
    subst hb
    simp only [List.any_eq_true, decide_eq_true_eq, not_exists, not_and] at hany
    intro hEq
    exact absurd hEq (by simpa using hany a ha)

/-- Under the uniqueness constraint, any filter that pins the fileId
keeps at most one row. -/
theorem keyed_filter_len_le_one (locks : List LockRow) (p : LockRow → Bool) (k : String)
    (hwf : locksWF locks) (hp : ∀ x, p x = true → x.fileId = k) :
    (locks.filter p).length ≤ 1 := by
  induction locks with
  | nil => simp
  | cons x xs ih =>
    rw [locksWF, List.pairwise_cons] at hwf
    rw [List.filter_cons]
    split
    · next hx =>
      have hk := hp x hx
      have : xs.filter p = [] := by
        rw [List.filter_eq_nil_iff]
        intro y hy hpy
        exact hwf.1 y hy (by rw [hk, hp y hpy])
      simp [this]
    · exact ih hwf.2

end Wopi

open Wopi in
/-- C1: verifying a freshly minted WOPI access token at the minting
instant returns the minted payload, whose fileId, userId and permission
fields are exactly the minting arguments; and verification at any
instant more than 24 hours after the issuance timestamp returns
none. -/
theorem claim1_token_mint_verify (f u p nonce : String) (now later : Int)
    (_hp : p = "view" ∨ p = "edit" ∨ p = "admin") :
    (verifyAccessToken (generateAccessToken f u p now nonce) now =
        some (generateAccessToken f u p now nonce) ∧
      (generateAccessToken f u p now nonce).fileId = f ∧
      (generateAccessToken f u p now nonce).userId = u ∧
      (generateAccessToken f u p now nonce).permissions = p) ∧
    (later - now > tokenMaxAgeMs →
      verifyAccessToken (generateAccessToken f u p now nonce) later = none) := by
  refine ⟨⟨?_, rfl, rfl, rfl⟩, ?_⟩
  · simp [verifyAccessToken, generateAccessToken, tokenMaxAgeMs]
  · intro h
    simp only [verifyAccessToken, generateAccessToken]
    rw [if_pos]
    exact h

open Wopi in
/-- C1 witness: instance of the claim at concrete inputs. -/
theorem claim1_token_mint_verify_witness :
    (("view" : String) = "view" ∨ ("view" : String) = "edit" ∨ ("view" : String) = "admin") ∧
    verifyAccessToken (generateAccessToken "f1" "u1" "view" 0 "n0") 0 =
      some (generateAccessToken "f1" "u1" "view" 0 "n0") ∧
    verifyAccessToken (generateAccessToken "f1" "u1" "view" 0 "n0") 86400001 = none := by
  have h := claim1_token_mint_verify "f1" "u1" "view" "n0" 0 86400001 (Or.inl rfl)
  exact ⟨Or.inl rfl, h.1.1, h.2 (by decide)⟩

open Wopi in
/-- C2: under the schema constraint that lock rows have pairwise
distinct file ids, the Lock handler preserves that constraint, at most
one live lock row exists for any file, a Lock request against a live
lock with a different value returns 409 carrying the existing (first)
lock value and leaves the state unchanged, and a Lock request with the
matching value refreshes the expiry of the existing row. -/
theorem claim2_lock_invariant (db : DB) (now : Int) (fileId lockId : String)
    (td : TokenPayload) (hwf : locksWF db.locks) :
    locksWF (handleLock db now fileId lockId td).1.locks ∧
    (db.locks.filter (fun l => decide (l.fileId = fileId ∧ now < l.expiresAt))).length ≤ 1 ∧
    (∀ ex, selectLiveLock db fileId now = some ex → ex.lockId ≠ lockId →
      handleLock db now fileId lockId td =
        (db, { status := 409, lockHeader := some ex.lockId, body := "File already locked" })) ∧
    (∀ ex, selectLiveLock db fileId now = some ex → ex.lockId = lockId →
      handleLock db now fileId lockId td =
        ({ db with locks := db.locks.map (fun l =>
              if l.fileId = fileId then { l with expiresAt := now + lockTtlMs } else l) },
         { status := 200, lockHeader := some lockId, body := "Lock refreshed" })) := by
  refine ⟨?_, ?_, ?_, ?_⟩
  · unfold handleLock
    cases hsel : selectLiveLock db fileId now with
    | some ex =>
      dsimp only
      split
      · exact locksWF_map db.locks _ (fun l => by split <;> rfl) hwf
      · exact hwf
    | none => exact locksWF_upsert db.locks _ hwf
  · exact keyed_filter_len_le_one db.locks _ fileId hwf
      (fun x hx => by simpa using (of_decide_eq_true hx).1)
  · intro ex hsel hne
    unfold handleLock
    rw [hsel]
    simp [hne]
  · intro ex hsel heq
    unfold handleLock
    rw [hsel]
    simp [heq]

open Wopi in
/-- C2 witness: instance of the claim on a concrete live lock. -/
theorem claim2_lock_invariant_witness :
    locksWF (handleLock sampleDbLiveLock 0 "f1" "zzz" sampleEditTokenU2).1.locks ∧
    handleLock sampleDbLiveLock 0 "f1" "zzz" sampleEditTokenU2 =
      (sampleDbLiveLock,
       { status := 409, lockHeader := some "abc", body := "File already locked" }) ∧
    handleLock sampleDbLiveLock 0 "f1" "abc" sampleEditTokenU2 =
      ({ sampleDbLiveLock with locks := sampleDbLiveLock.locks.map (fun l =>
            if l.fileId = "f1" then { l with expiresAt := 0 + lockTtlMs } else l) },
       { status := 200, lockHeader := some "abc", body := "Lock refreshed" }) := by
  have h1 := claim2_lock_invariant sampleDbLiveLock 0 "f1" "zzz" sampleEditTokenU2 (by decide)
  have h2 := claim2_lock_invariant sampleDbLiveLock 0 "f1" "abc" sampleEditTokenU2 (by decide)
  refine ⟨h1.1, ?_, ?_⟩
  · exact h1.2.2.1 sampleLiveRow (by decide) (by decide)
  · exact h2.2.2.2 sampleLiveRow (by decide) rfl

open Wopi in
/-- C7 counterexample: with only an expired lock row (value `xyz`,
expired at 100, observed at 200) no live lock exists, yet Unlock with a
different value `abc` returns 409 carrying `xyz` instead of the
idempotent success the claim requires. -/
theorem claim7_unlock_counterexample :
    selectLiveLock sampleDbExpiredLock "f1" 200 = none ∧
    (handleUnlock sampleDbExpiredLock "f1" "abc").2.status = 409 ∧
    (handleUnlock sampleDbExpiredLock "f1" "abc").2.lockHeader = some "xyz" ∧
    handleUnlock sampleDbExpiredLock "f1" "abc" ≠
      (sampleDbExpiredLock,
       { status := 200, lockHeader := some "", body := "No lock to remove" }) := by
  decide

open Wopi in
/-- C7 amended: Unlock matches the stored lock row regardless of
expiry.  It succeeds removing the row exactly when the stored row's
value matches (live or expired); it is idempotently successful when no
lock row exists at all; otherwise it returns 409 carrying the stored
value. -/
theorem claim7_unlock_amended (db : DB) (fileId lockId : String) :
    (db.locks.find? (fun l => decide (l.fileId = fileId)) = none →
      handleUnlock db fileId lockId =
        (db, { status := 200, lockHeader := some "", body := "No lock to remove" })) ∧
    (∀ ex, db.locks.find? (fun l => decide (l.fileId = fileId)) = some ex →
      (ex.lockId = lockId →
        handleUnlock db fileId lockId =
          ({ db with locks := db.locks.filter (fun l => decide (l.fileId ≠ fileId)) },
           { status := 200, lockHeader := some "", body := "Unlocked" })) ∧
      (ex.lockId ≠ lockId →
        handleUnlock db fileId lockId =
          (db, { status := 409, lockHeader := some ex.lockId, body := "Lock mismatch" }))) := by
  refine ⟨?_, ?_⟩
  · intro h
    unfold handleUnlock
    rw [h]
  · intro ex h
    constructor
    · intro heq
      unfold handleUnlock
      rw [h]
      simp [heq]
    · intro hne
      unfold handleUnlock
      rw [h]
      simp [hne]

open Wopi in
/-- C7 amended witness: the three behaviors at concrete states. -/
theorem claim7_unlock_amended_witness :
    handleUnlock sampleDb "f1" "abc" =
      (sampleDb, { status := 200, lockHeader := some "", body := "No lock to remove" }) ∧
    handleUnlock sampleDbExpiredLock "f1" "xyz" =
      ({ sampleDbExpiredLock with
          locks := sampleDbExpiredLock.locks.filter (fun l => decide (l.fileId ≠ "f1")) },
       { status := 200, lockHeader := some "", body := "Unlocked" }) ∧
    handleUnlock sampleDbExpiredLock "f1" "abc" =
      (sampleDbExpiredLock,
       { status := 409, lockHeader := some "xyz", body := "Lock mismatch" }) := by
  refine ⟨?_, ?_, ?_⟩
  · exact (claim7_unlock_amended sampleDb "f1" "abc").1 (by decide)
  · exact ((claim7_unlock_amended sampleDbExpiredLock "f1" "xyz").2
      { fileId := "f1", lockId := "xyz", lockedBy := "u1", expiresAt := 100 } (by decide)).1 rfl
  · exact ((claim7_unlock_amended sampleDbExpiredLock "f1" "abc").2
      { fileId := "f1", lockId := "xyz", lockedBy := "u1", expiresAt := 100 } (by decide)).2
      (by decide)

open Wopi in
/-- C3: a PutFile call on an existing file presenting a lock header
different from the live lock's value returns 409 with the stored lock
value in the X-WOPI-Lock header and leaves the entire database and
filesystem state unchanged (so no version row, no version bump, no
bytes written). -/
theorem claim3_putfile_lock_conflict (db : DB) (now : Int) (fileId : String)
    (tok td : TokenPayload) (hdr : String) (body : String) (file : FileRow) (ex : LockRow)
    (hv : verifyAccessToken tok now = some td)
    (hperm : td.permissions = "edit" ∨ td.permissions = "admin")
    (hfind : findFile db fileId = some file)
    (hsel : selectLiveLock db fileId now = some ex)
    (hne : hdr ≠ ex.lockId) :
    putFile db now fileId (some tok) (some hdr) body =
      (db, { status := 409, lockHeader := some ex.lockId, body := "Lock mismatch" }) := by
  simp only [putFile, hv, hfind, hsel]
  rw [if_neg (show ¬(td.permissions ≠ "edit" ∧ td.permissions ≠ "admin") by
    rcases hperm with h | h <;> simp [h])]
  rw [if_pos (show some hdr ≠ some ex.lockId by simpa using hne)]

namespace Wopi

theorem fsRead_fsWrite_self (fs : List (String × String)) (p v : String) :
    fsRead (fsWrite fs p v) p = some v := by
  unfold fsRead fsWrite
  rw [List.find?_cons]
  simp

theorem find?_filter_of_imp {α : Type} (l : List α) (p q : α → Bool)
    (h : ∀ e, p e = true → q e = true) : (l.filter q).find? p = l.find? p := by
  induction l with
  | nil => rfl
  | cons x xs ih =>
    rw [List.filter_cons]
    by_cases hq : q x = true
    · rw [if_pos hq]
      rw [List.find?_cons, List.find?_cons]
      cases hp : p x
      · exact ih
      · rfl
    · rw [if_neg hq]
      rw [List.find?_cons]
      cases hp : p x
      · exact ih
      · exact absurd (h x hp) hq

theorem fsRead_fsWrite_ne (fs : List (String × String)) (p v q : String) (h : q ≠ p) :
    fsRead (fsWrite fs p v) q = fsRead fs q := by
  unfold fsRead fsWrite
  rw [List.find?_cons]
  have : (decide ((p, v).1 = q)) = false := by simpa using fun hh => h hh.symm
  rw [this]
  rw [find?_filter_of_imp]
  intro e he
  simp only [decide_eq_true_eq] at he ⊢
  rw [he]
  exact h

theorem string_ne_append_v (s t : String) : s ≠ s ++ ".v" ++ t := by
  intro h
  have := congrArg String.length h
  rw [String.length_append, String.length_append] at this
  have h2 : (".v" : String).length = 2 := rfl
  omega

theorem findFile_map_version (db : DB) (fileId : String) (f : FileRow) (ns nv : Int)
    (hfind : findFile db fileId = some f) :
    (db.files.map (fun g => if g.id = fileId then { g with size := ns, version := nv }
      else g)).find? (fun g => decide (g.id = fileId ∧ g.isDeleted = false)) =
      some { f with size := ns, version := nv } := by
  rw [List.find?_map]
  have hfun : ((fun g : FileRow => decide (g.id = fileId ∧ g.isDeleted = false)) ∘
      (fun g : FileRow => if g.id = fileId then { g with size := ns, version := nv } else g)) =
      (fun g : FileRow => decide (g.id = fileId ∧ g.isDeleted = false)) := by
    funext g
    simp only [Function.comp]
    split <;> rfl
  rw [hfun]
  unfold findFile at hfind
  rw [hfind]
  have hp := List.find?_some hfind
  simp only [decide_eq_true_eq] at hp
  simp only [Option.map_some']
  rw [if_pos hp.1]

end Wopi

open Wopi in
/-- C4: every successful (status 200) PutFile on a file bumps that
file's version by exactly one and appends exactly one file_versions
snapshot row recording the pre-overwrite version, size and content. -/
theorem claim4_putfile_version_snapshot (db : DB) (now : Int) (fileId : String)
    (tok : TokenPayload) (wopiLock : Option String) (body : String) (f : FileRow)
    (hfind : findFile db fileId = some f)
    (hstatus : (putFile db now fileId (some tok) wopiLock body).2.status = 200) :
    ∃ td oldContent,
      verifyAccessToken tok now = some td ∧
      fsRead db.fs f.storagePath = some oldContent ∧
      (putFile db now fileId (some tok) wopiLock body).1.versions = db.versions ++
        [{ fileId := fileId, version := f.version, size := f.size,
           storagePath := f.storagePath ++ ".v" ++ toString f.version,
           createdBy := td.userId }] ∧
      (putFile db now fileId (some tok) wopiLock body).1.files = db.files.map (fun g =>
        if g.id = fileId then { g with size := (body.length : Int), version := f.version + 1 }
        else g) ∧
      findFile (putFile db now fileId (some tok) wopiLock body).1 fileId =
        some { f with size := (body.length : Int), version := f.version + 1 } ∧
      fsRead (putFile db now fileId (some tok) wopiLock body).1.fs
        (f.storagePath ++ ".v" ++ toString f.version) = some oldContent := by
  cases hv : verifyAccessToken tok now with
  | none => simp [putFile, hv] at hstatus
  | some td =>
    by_cases hp : td.permissions ≠ "edit" ∧ td.permissions ≠ "admin"
    · simp only [putFile, hv] at hstatus
      rw [if_pos hp] at hstatus
      simp at hstatus
    · have hwrite : putFile db now fileId (some tok) wopiLock body =
          putFileWrite db fileId td f body := by
        simp only [putFile, hv, hfind]
        rw [if_neg hp]
        cases hsel : selectLiveLock db fileId now with
        | none => rfl
        | some ex =>
          dsimp only
          split
          · next hcond =>
            exfalso
            rw [putFile] at hstatus
            simp only [hv, hfind, hsel] at hstatus
            rw [if_neg hp] at hstatus
            rw [if_pos hcond] at hstatus
            simp at hstatus
          · rfl
      rw [hwrite] at hstatus ⊢
      cases hread : fsRead db.fs f.storagePath with
      | none => simp [putFileWrite, hread] at hstatus
      | some oldContent =>
        refine ⟨td, oldContent, rfl, rfl, ?_, ?_, ?_, ?_⟩
        · simp [putFileWrite, hread]
        · simp [putFileWrite, hread]
        · show findFile _ fileId = _
          unfold findFile
          simp only [putFileWrite, hread]
          exact findFile_map_version db fileId f _ _ hfind
        · simp only [putFileWrite, hread]
          rw [fsRead_fsWrite_ne _ _ _ _ (string_ne_append_v f.storagePath (toString f.version)).symm]
          exact fsRead_fsWrite_self db.fs _ oldContent

open Wopi in
/-- C3 witness: instance of the lock-conflict claim on concrete data. -/
theorem claim3_putfile_lock_conflict_witness :
    putFile sampleDbLiveLock 0 "f1" (some sampleEditTokenU2) (some "zzz") "newbytes" =
      (sampleDbLiveLock,
       { status := 409, lockHeader := some "abc", body := "Lock mismatch" }) := by
  exact claim3_putfile_lock_conflict sampleDbLiveLock 0 "f1" sampleEditTokenU2
    sampleEditTokenU2 "zzz" "newbytes"
    { id := "f1", ownerId := "u1", filename := "f1.odt", originalFilename := "report.odt",
      mimeType := "application/vnd.oasis.opendocument.text", size := 3,
      storagePath := "u1/f1.odt", version := 1, isDeleted := false, parentFolderId := none }
    sampleLiveRow rfl (Or.inl rfl) (by decide) (by decide) (by decide)

open Wopi in
/-- C4 witness: instance of the version-snapshot claim on a concrete
successful PutFile. -/
theorem claim4_putfile_version_snapshot_witness :
    ∃ td oldContent,
      verifyAccessToken sampleEditTokenU2 0 = some td ∧
      fsRead sampleDb.fs "u1/f1.odt" = some oldContent ∧
      (putFile sampleDb 0 "f1" (some sampleEditTokenU2) none "xyzw").1.versions =
        sampleDb.versions ++
        [{ fileId := "f1", version := 1, size := 3,
           storagePath := "u1/f1.odt" ++ ".v" ++ toString (1 : Int),
           createdBy := td.userId }] ∧
      (putFile sampleDb 0 "f1" (some sampleEditTokenU2) none "xyzw").1.files =
        sampleDb.files.map (fun g =>
          if g.id = "f1" then { g with size := (("xyzw" : String).length : Int), version := 1 + 1 }
          else g) ∧
      findFile (putFile sampleDb 0 "f1" (some sampleEditTokenU2) none "xyzw").1 "f1" =
        some { id := "f1", ownerId := "u1", filename := "f1.odt",
               originalFilename := "report.odt",
               mimeType := "application/vnd.oasis.opendocument.text",
               size := (("xyzw" : String).length : Int),
               storagePath := "u1/f1.odt", version := 1 + 1, isDeleted := false,
               parentFolderId := none } ∧
      fsRead (putFile sampleDb 0 "f1" (some sampleEditTokenU2) none "xyzw").1.fs
        ("u1/f1.odt" ++ ".v" ++ toString (1 : Int)) = some oldContent := by
  exact claim4_putfile_version_snapshot sampleDb 0 "f1" sampleEditTokenU2 none "xyzw"
    { id := "f1", ownerId := "u1", filename := "f1.odt", originalFilename := "report.odt",
      mimeType := "application/vnd.oasis.opendocument.text", size := 3,
      storagePath := "u1/f1.odt", version := 1, isDeleted := false, parentFolderId := none }
    (by decide) (by decide)

open Wopi in
/-- C5: the WOPI override dispatch re-derives no write eligibility: a
PUT_RELATIVE request whose verified token carries only view permission
succeeds (status 200) and creates a new file, instead of being
rejected.  This contradicts the spec contract that every mutating call
checks permission membership in the edit/admin set. -/
theorem claim5_putrelative_view_token_creates_file :
    (verifyAccessToken sampleViewToken 0).map (fun t => t.permissions) = some "view" ∧
    (wopiPost sampleDb 0 "f1" (some sampleViewToken) .putRelativeOp "" none none
        (some "copy.odt") false "xyz" "n2").2.status = 200 ∧
    (wopiPost sampleDb 0 "f1" (some sampleViewToken) .putRelativeOp "" none none
        (some "copy.odt") false "xyz" "n2").1.files.length = sampleDb.files.length + 1 ∧
    (wopiPost sampleDb 0 "f1" (some sampleViewToken) .putRelativeOp "" none none
        (some "copy.odt") false "xyz" "n2").1.files.map (fun f => f.originalFilename) =
      ["report.odt", "copy.odt"] := by
  decide

open Wopi in
/-- C6: RenameFile and DeleteFile perform no ownership check: a token
verified for user u2, who does not own file f1 (owner u1), renames and
logically deletes the file with status 200, instead of being
refused. -/
theorem claim6_rename_delete_without_ownership :
    (verifyAccessToken sampleEditTokenU2 0).map (fun t => t.userId) = some "u2" ∧
    (findFile sampleDb "f1").map (fun f => f.ownerId) = some "u1" ∧
    (wopiPost sampleDb 0 "f1" (some sampleEditTokenU2) .renameFileOp "" (some "hacked.odt")
        none none false "" "n3").2.status = 200 ∧
    (wopiPost sampleDb 0 "f1" (some sampleEditTokenU2) .renameFileOp "" (some "hacked.odt")
        none none false "" "n3").1.files.map (fun f => f.originalFilename) = ["hacked.odt"] ∧
    (wopiPost sampleDb 0 "f1" (some sampleEditTokenU2) .deleteOp "" none
        none none false "" "n4").2.status = 200 ∧
    (wopiPost sampleDb 0 "f1" (some sampleEditTokenU2) .deleteOp "" none
        none none false "" "n4").1.files.map (fun f => f.isDeleted) = [true] := by
  decide

namespace Ltpa

theorem splitOnChar_cons (c x : Char) (xs : List Char) :
    splitOnChar c (x :: xs) =
      match splitOnChar c xs with
      | [] => [[]]
      | h :: t => if x = c then [] :: h :: t else (x :: h) :: t := rfl

theorem breakAtChar_cons (c x : Char) (xs : List Char) :
    breakAtChar c (x :: xs) =
      (if x = c then some ([], xs)
       else
        match breakAtChar c xs with
        | some p => some (x :: p.1, p.2)
        | none => none) := rfl

theorem splitOnChar_ne_nil (c : Char) (l : List Char) : splitOnChar c l ≠ [] := by
  induction l with
  | nil => simp [splitOnChar]
  | cons x xs ih =>
    rw [splitOnChar_cons]
    cases h : splitOnChar c xs with
    | nil => simp
    | cons hh tt =>
      dsimp only
      split <;> simp

theorem splitOnChar_cons_sep (c : Char) (xs : List Char) :
    splitOnChar c (c :: xs) = [] :: splitOnChar c xs := by
  rw [splitOnChar_cons]
  cases h : splitOnChar c xs with
  | nil => exact absurd h (splitOnChar_ne_nil c xs)
  | cons hh tt => simp

theorem splitOnChar_cons_ne (c x : Char) (xs : List Char) (hx : x ≠ c) :
    splitOnChar c (x :: xs) =
      (x :: (splitOnChar c xs).headD []) :: (splitOnChar c xs).tail := by
  rw [splitOnChar_cons]
  cases h : splitOnChar c xs with
  | nil => exact absurd h (splitOnChar_ne_nil c xs)
  | cons hh tt => simp [hx]

theorem splitOnChar_eq_single (c : Char) (l : List Char) (h : ∀ a ∈ l, a ≠ c) :
    splitOnChar c l = [l] := by
  induction l with
  | nil => rfl
  | cons x xs ih =>
    have hx : x ≠ c := h x (by simp)
    rw [splitOnChar_cons_ne c x xs hx, ih (fun a ha => h a (by simp [ha]))]
    rfl

theorem splitOnChar_append_sep (c : Char) (xs ys : List Char) :
    splitOnChar c (xs ++ c :: ys) = splitOnChar c xs ++ splitOnChar c ys := by
  induction xs with
  | nil =>
    rw [List.nil_append, splitOnChar_cons_sep]
    rfl
  | cons x xs ih =>
    by_cases hx : x = c
    · subst hx
      rw [List.cons_append, splitOnChar_cons_sep, splitOnChar_cons_sep, ih, List.cons_append]
    · rw [List.cons_append, splitOnChar_cons_ne c x _ hx, splitOnChar_cons_ne c x xs hx, ih]
      cases h : splitOnChar c xs with
      | nil => exact absurd h (splitOnChar_ne_nil c xs)
      | cons hh tt => simp

theorem mem_of_mem_splitOnChar (c : Char) (l : List Char) :
    ∀ p ∈ splitOnChar c l, ∀ a ∈ p, a ∈ l := by
  induction l with
  | nil =>
    intro p hp a ha
    simp [splitOnChar] at hp
    subst hp
    simp at ha
  | cons x xs ih =>
    intro p hp a ha
    by_cases hx : x = c
    · subst hx
      rw [splitOnChar_cons_sep] at hp
      rcases List.mem_cons.mp hp with rfl | hp2
      · simp at ha
      · exact List.mem_cons_of_mem _ (ih p hp2 a ha)
    · rw [splitOnChar_cons_ne c x xs hx] at hp
      rcases List.mem_cons.mp hp with rfl | hp2
      · rcases List.mem_cons.mp ha with rfl | hah
        · simp
        · refine List.mem_cons_of_mem _ (ih ((splitOnChar c xs).headD []) ?_ a hah)
          cases h : splitOnChar c xs with
          | nil => exact absurd h (splitOnChar_ne_nil c xs)
          | cons hh tt => simp
      · refine List.mem_cons_of_mem _ (ih p ?_ a ha)
        cases h : splitOnChar c xs with
        | nil => exact absurd h (splitOnChar_ne_nil c xs)
        | cons hh tt =>
          rw [h] at hp2
          simp only [List.tail_cons] at hp2
          simp [hp2]

theorem two_le_splitOnChar_length (c : Char) (l : List Char) (h : c ∈ l) :
    2 ≤ (splitOnChar c l).length := by
  induction l with
  | nil => simp at h
  | cons x xs ih =>
    by_cases hx : x = c
    · subst hx
      rw [splitOnChar_cons_sep]
      have := splitOnChar_ne_nil x xs
      cases hs : splitOnChar x xs with
      | nil => exact absurd hs this
      | cons hh tt => simp
    · rcases List.mem_cons.mp h with rfl | hmem
      · exact absurd rfl (Ne.symm hx)
      · have h2 := ih hmem
        rw [splitOnChar_cons_ne c x xs hx]
        cases hs : splitOnChar c xs with
        | nil => exact absurd hs (splitOnChar_ne_nil c xs)
        | cons hh tt =>
          rw [hs] at h2
          simp at h2 ⊢
          omega

theorem breakAtChar_eq_none (c : Char) (l : List Char) (h : ∀ a ∈ l, a ≠ c) :
    breakAtChar c l = none := by
  induction l with
  | nil => rfl
  | cons x xs ih =>
    rw [breakAtChar_cons, if_neg (h x (by simp)), ih (fun a ha => h a (by simp [ha]))]

theorem breakAtChar_append (c : Char) (xs ys : List Char) (h : ∀ a ∈ xs, a ≠ c) :
    breakAtChar c (xs ++ c :: ys) = some (xs, ys) := by
  induction xs with
  | nil => simp [breakAtChar_cons]
  | cons x xs ih =>
    rw [List.cons_append, breakAtChar_cons, if_neg (h x (by simp)),
      ih (fun a ha => h a (by simp [ha]))]

theorem dropWhile_append_cons (p : Char → Bool) (xs : List Char) (y : Char) (ys : List Char)
    (hy : p y = false) : (xs ++ y :: ys).dropWhile p = xs.dropWhile p ++ y :: ys := by
  induction xs with
  | nil => simp [List.dropWhile_cons, hy]
  | cons x xs ih =>
    by_cases hx : p x = true
    · simp [List.dropWhile_cons, hx, ih]
    · simp only [Bool.not_eq_true] at hx
      simp [List.dropWhile_cons, hx]

theorem dropWhile_eq_self_of_all (p : Char → Bool) (l : List Char)
    (h : ∀ a ∈ l, p a = false) : l.dropWhile p = l := by
  cases l with
  | nil => rfl
  | cons x xs => simp [List.dropWhile_cons, h x (by simp)]

theorem stripTrailing_append_cons (p : Char → Bool) (xs : List Char) (y : Char)
    (ys : List Char) (hy : p y = false) (hys : ∀ a ∈ ys, p a = false) :
    stripTrailing p (xs ++ y :: ys) = xs ++ y :: ys := by
  unfold stripTrailing
  have h1 : (xs ++ y :: ys).reverse = ys.reverse ++ y :: xs.reverse := by simp
  rw [h1, dropWhile_append_cons p _ y _ hy,
      dropWhile_eq_self_of_all p _ (fun a ha => hys a (by simpa using ha))]
  simp

theorem mem_dropWhile_of_mem (p : Char → Bool) (l : List Char) (a : Char)
    (ha : a ∈ l) (hp : p a = false) : a ∈ l.dropWhile p := by
  induction l with
  | nil => simp at ha
  | cons x xs ih =>
    by_cases hx : p x = true
    · rw [List.dropWhile_cons, if_pos hx]
      rcases List.mem_cons.mp ha with rfl | hmem
      · rw [hx] at hp; cases hp
      · exact ih hmem
    · simp only [Bool.not_eq_true] at hx
      rw [List.dropWhile_cons, hx]
      simpa using ha

theorem hasChar_iff (c : Char) (l : List Char) : hasChar c l = true ↔ c ∈ l := by
  unfold hasChar
  rw [List.any_eq_true]
  constructor
  · rintro ⟨a, ha, he⟩
    exact (of_decide_eq_true he) ▸ ha
  · intro h
    exact ⟨c, h, by simp⟩

theorem hasChar_eq_false (c : Char) (l : List Char) (h : ∀ a ∈ l, a ≠ c) :
    hasChar c l = false := by
  rw [Bool.eq_false_iff]
  intro hc
  exact h c ((hasChar_iff c l).mp hc) rfl

end Ltpa

namespace Ltpa

theorem digitChar_isDigit (m : Nat) (hm : m < 10) :
    isDigitC (Char.ofNat (48 + m)) = true := by
  interval_cases m <;> decide

theorem digitChar_toNat (m : Nat) (hm : m < 10) :
    (Char.ofNat (48 + m)).toNat - 48 = m := by
  interval_cases m <;> decide

theorem isDigitC_ne_pct (a : Char) (h : isDigitC a = true) : a ≠ '%' := by
  intro hEq
  subst hEq
  simp [isDigitC] at h

theorem toDecimalAux_digits (fuel : Nat) : ∀ n acc, (∀ a ∈ acc, isDigitC a = true) →
    ∀ a ∈ toDecimalAux fuel n acc, isDigitC a = true := by
  induction fuel with
  | zero => intro n acc hacc a ha; exact hacc a ha
  | succ fuel ih =>
    intro n acc hacc a ha
    unfold toDecimalAux at ha
    split at ha
    · exact hacc a ha
    · refine ih (n / 10) _ ?_ a ha
      intro b hb
      rcases List.mem_cons.mp hb with rfl | hmem
      · exact digitChar_isDigit (n % 10) (Nat.mod_lt n (by norm_num))
      · exact hacc b hmem

theorem toDecimalAux_append (fuel : Nat) : ∀ n acc,
    toDecimalAux fuel n acc = toDecimalAux fuel n [] ++ acc := by
  induction fuel with
  | zero => intro n acc; rfl
  | succ fuel ih =>
    intro n acc
    unfold toDecimalAux
    split
    · rfl
    · rw [ih (n / 10) (Char.ofNat (48 + n % 10) :: acc),
        ih (n / 10) [Char.ofNat (48 + n % 10)]]
      simp

theorem toDecimalAux_value (fuel : Nat) : ∀ n, n ≤ fuel →
    (toDecimalAux fuel n []).foldl (fun a c => a * 10 + (c.toNat - 48)) 0 = n := by
  induction fuel with
  | zero =>
    intro n hn
    interval_cases n
    rfl
  | succ fuel ih =>
    intro n hn
    by_cases h0 : n = 0
    · subst h0; rfl
    · unfold toDecimalAux
      rw [if_neg h0]
      rw [toDecimalAux_append fuel (n / 10) [Char.ofNat (48 + n % 10)]]
      rw [List.foldl_append]
      have hdiv : n / 10 ≤ fuel := by
        have := Nat.div_lt_self (Nat.pos_of_ne_zero h0) (show 1 < 10 by norm_num)
        omega
      rw [ih (n / 10) hdiv]
      simp only [List.foldl_cons, List.foldl_nil]
      rw [digitChar_toNat (n % 10) (Nat.mod_lt n (by norm_num))]
      omega

theorem toDecimal_digits (n : Nat) : ∀ a ∈ toDecimal n, isDigitC a = true := by
  unfold toDecimal
  split
  · intro a ha
    simp at ha
    subst ha
    decide
  · exact toDecimalAux_digits (n + 1) n [] (by simp)

theorem toDecimal_no_pct (n : Nat) : ∀ a ∈ toDecimal n, a ≠ '%' :=
  fun a ha => isDigitC_ne_pct a (toDecimal_digits n a ha)

theorem takeWhile_eq_self_of_all (p : Char → Bool) (l : List Char)
    (h : ∀ a ∈ l, p a = true) : l.takeWhile p = l := by
  induction l with
  | nil => rfl
  | cons x xs ih =>
    rw [List.takeWhile_cons, if_pos (h x (by simp)), ih (fun a ha => h a (by simp [ha]))]

theorem parseIntDec_toDecimal (n : Nat) : parseIntDec (toDecimal n) = some n := by
  have htake : (toDecimal n).takeWhile isDigitC = toDecimal n :=
    takeWhile_eq_self_of_all isDigitC (toDecimal n) (toDecimal_digits n)
  have hval : (toDecimal n).foldl (fun a c => a * 10 + (c.toNat - 48)) 0 = n := by
    unfold toDecimal
    split
    · next h0 => subst h0; rfl
    · exact toDecimalAux_value (n + 1) n (by omega)
  have hne : toDecimal n ≠ [] := by
    intro hnil
    unfold toDecimal at hnil
    split at hnil
    · cases hnil
    · next h0 =>
      have hv2 := toDecimalAux_value (n + 1) n (by omega)
      rw [hnil] at hv2
      simp at hv2
      exact h0 hv2.symm
  simp only [parseIntDec]
  rw [htake, if_neg hne, hval]

theorem joinAttrs_no_pct (attrs : List (List Char × List Char))
    (h : ∀ kv ∈ attrs, (∀ c ∈ kv.1, c ≠ '%') ∧ (∀ c ∈ kv.2, c ≠ '%')) :
    ∀ a ∈ joinAttrs attrs, a ≠ '%' := by
  induction attrs with
  | nil => intro a ha; simp [joinAttrs] at ha
  | cons kv rest ih =>
    obtain ⟨k, v⟩ := kv
    have hk := (h (k, v) (by simp)).1
    have hv := (h (k, v) (by simp)).2
    intro a ha
    cases rest with
    | nil =>
      simp only [joinAttrs, List.mem_append, List.mem_cons] at ha
      rcases ha with h1 | h2 | h3
      · exact hk a h1
      · subst h2; decide
      · exact hv a h3
    | cons kv2 rest2 =>
      simp only [joinAttrs, List.mem_append, List.mem_cons] at ha
      rcases ha with (h1 | h2 | h3) | h4 | h5
      · exact hk a h1
      · subst h2; decide
      · exact hv a h3
      · subst h4; decide
      · exact ih (fun kv hkv => h kv (by simp [hkv])) a h5

end Ltpa

namespace Ltpa

theorem findByFormat_none (fmt : List Char) (rs : List (List Char))
    (h : ∀ r ∈ rs, breakAtChar '=' r = none) : findByFormat fmt rs = none := by
  induction rs with
  | nil => rfl
  | cons r rest ih =>
    unfold findByFormat
    rw [h r (by simp)]
    exact ih (fun r2 hr2 => h r2 (by simp [hr2]))

theorem findCnOrUid_none (rs : List (List Char))
    (h : ∀ r ∈ rs, breakAtChar '=' r = none) : findCnOrUid rs = none := by
  induction rs with
  | nil => rfl
  | cons r rest ih =>
    unfold findCnOrUid
    rw [h r (by simp)]
    exact ih (fun r2 hr2 => h r2 (by simp [hr2]))

theorem extract_plain (fmt dn : List Char) (hne : dn ≠ [])
    (hnoeq : ∀ a ∈ dn, a ≠ '=') (hnosl : ∀ a ∈ dn, a ≠ '/') :
    extractUsernameFromDN fmt dn = dn := by
  unfold extractUsernameFromDN
  rw [if_neg hne]
  by_cases hfmt : fmt = "dn".data
  · rw [if_pos hfmt]
  · rw [if_neg hfmt]
    have hslash : hasChar '/' dn = false := hasChar_eq_false _ _ hnosl
    simp only [hslash, Bool.false_and, Bool.false_eq_true, if_false]
    have hb : ∀ r ∈ splitOnChar ',' dn, breakAtChar '=' r = none := fun r hr =>
      breakAtChar_eq_none _ _ (fun a ha => hnoeq a (mem_of_mem_splitOnChar ',' dn r hr a ha))
    rw [findByFormat_none fmt _ hb, findCnOrUid_none _ hb]

end Ltpa

namespace Ltpa

theorem isDigit_not_space (a : Char) (h : isDigitC a = true) :
    isJsSpace a = false ∧ a ≠ nulChar := by
  constructor
  · apply decide_eq_false
    intro hd
    rcases hd with h1 | h1 | h1 | h1 <;> subst h1 <;> exact absurd h (by decide)
  · intro hEq
    subst hEq
    exact absurd h (by decide)

theorem ltpa_validate_core (cfg : LtpaConfig) (now : Nat) (username AP S : List Char)
    (hrealm : ∀ c ∈ cfg.realm, c ≠ '%' ∧ c ≠ '/')
    (hne : username ≠ [])
    (huser : ∀ c ∈ username, c ≠ '%' ∧ c ≠ '$' ∧ c ≠ '/' ∧ c ≠ '=')
    (hAP : ∀ a ∈ AP, a ≠ '%')
    (hda : (match breakAtChar '$' (username ++ AP) with
            | some p => p.1
            | none => username ++ AP) = username)
    (hS : ∀ c ∈ S, c ≠ '%' ∧ isJsSpace c = false ∧ c ≠ nulChar) :
    (validateToken cfg now (("u:user:".data ++ (cfg.realm ++ '/' :: (username ++ AP))) ++
        '%' :: (toDecimal (now + cfg.tokenExpiration * 1000) ++ '%' :: S))).map
      (fun p => p.username) = some username := by
  have hW_pct : ∀ a ∈ ("u:user:".data ++ (cfg.realm ++ '/' :: (username ++ AP))), a ≠ '%' := by
    have hbase : ∀ a ∈ ("u:user:".data : List Char), a ≠ '%' := by decide
    intro a ha
    rcases List.mem_append.mp ha with h1 | h2
    · exact hbase a h1
    · rcases List.mem_append.mp h2 with h3 | h4
      · exact (hrealm a h3).1
      · rcases List.mem_cons.mp h4 with rfl | h5
        · decide
        · rcases List.mem_append.mp h5 with h6 | h7
          · exact (huser a h6).1
          · exact hAP a h7
  have hD_pct := toDecimal_no_pct (now + cfg.tokenExpiration * 1000)
  have hD_digits := toDecimal_digits (now + cfg.tokenExpiration * 1000)
  -- the content in the two associativity forms used below
  have hassoc : ("u:user:".data ++ (cfg.realm ++ '/' :: (username ++ AP))) ++
        '%' :: (toDecimal (now + cfg.tokenExpiration * 1000) ++ '%' :: S) =
      (("u:user:".data ++ (cfg.realm ++ '/' :: (username ++ AP))) ++
        '%' :: toDecimal (now + cfg.tokenExpiration * 1000)) ++ '%' :: S := by
    simp [List.append_assoc]
  have hnorm : normalizeContent (("u:user:".data ++ (cfg.realm ++ '/' :: (username ++ AP))) ++
        '%' :: (toDecimal (now + cfg.tokenExpiration * 1000) ++ '%' :: S)) =
      ("u:user:".data ++ (cfg.realm ++ '/' :: (username ++ AP))) ++
        '%' :: (toDecimal (now + cfg.tokenExpiration * 1000) ++ '%' :: S) := by
    unfold normalizeContent jsTrim
    rw [hassoc]
    rw [stripTrailing_append_cons _ _ '%' S (by decide) (fun a ha => by
      apply decide_eq_false
      intro hEq
      exact (hS a ha).2.2 hEq)]
    rw [stripTrailing_append_cons _ _ '%' S (by decide) (fun a ha => (hS a ha).2.1)]
    rw [← hassoc]
    obtain ⟨t, ht⟩ : ∃ t, ("u:user:".data ++ (cfg.realm ++ '/' :: (username ++ AP))) ++
        '%' :: (toDecimal (now + cfg.tokenExpiration * 1000) ++ '%' :: S) = 'u' :: t := by
      refine ⟨(":user:".data ++ (cfg.realm ++ '/' :: (username ++ AP))) ++
        '%' :: (toDecimal (now + cfg.tokenExpiration * 1000) ++ '%' :: S), ?_⟩
      rfl
    rw [ht, List.dropWhile_cons]
    rw [if_neg (by decide : ¬ (isJsSpace 'u' = true))]
  have hsplit : splitOnChar '%' (("u:user:".data ++ (cfg.realm ++ '/' :: (username ++ AP))) ++
        '%' :: (toDecimal (now + cfg.tokenExpiration * 1000) ++ '%' :: S)) =
      [("u:user:".data ++ (cfg.realm ++ '/' :: (username ++ AP))),
       toDecimal (now + cfg.tokenExpiration * 1000), S] := by
    rw [splitOnChar_append_sep, splitOnChar_append_sep,
      splitOnChar_eq_single '%' _ hW_pct,
      splitOnChar_eq_single '%' _ hD_pct,
      splitOnChar_eq_single '%' _ (fun a ha => (hS a ha).1)]
    rfl
  have hplaus : decryptPlausible (("u:user:".data ++ (cfg.realm ++ '/' :: (username ++ AP))) ++
        '%' :: (toDecimal (now + cfg.tokenExpiration * 1000) ++ '%' :: S)) = true := by
    unfold decryptPlausible
    have h1 : hasChar '%' (("u:user:".data ++ (cfg.realm ++ '/' :: (username ++ AP))) ++
        '%' :: (toDecimal (now + cfg.tokenExpiration * 1000) ++ '%' :: S)) = true := by
      rw [hasChar_iff]
      exact List.mem_append.mpr (Or.inr (by simp))
    have h2 : ("user:".data <:+: (("u:user:".data ++ (cfg.realm ++ '/' :: (username ++ AP))) ++
        '%' :: (toDecimal (now + cfg.tokenExpiration * 1000) ++ '%' :: S))) := by
      refine ⟨['u', ':'], (cfg.realm ++ '/' :: (username ++ AP)) ++
        '%' :: (toDecimal (now + cfg.tokenExpiration * 1000) ++ '%' :: S), ?_⟩
      simp
    rw [h1, decide_eq_true h2]
    rfl
  have hpu : (parseUserPart cfg.dominoUserFormat
      ("u:user:".data ++ (cfg.realm ++ '/' :: (username ++ AP)))).1 = username := by
    unfold parseUserPart
    have hpre : ("u:user:".data).isPrefixOf
        ("u:user:".data ++ (cfg.realm ++ '/' :: (username ++ AP))) = true := by
      rw [List.isPrefixOf_iff_prefix]
      exact ⟨_, rfl⟩
    rw [hpre]
    rw [if_pos rfl]
    have hdrop : ("u:user:".data ++ (cfg.realm ++ '/' :: (username ++ AP))).drop 7 =
        cfg.realm ++ '/' :: (username ++ AP) := by
      rw [show (7 : Nat) = ("u:user:".data).length from rfl]
      exact List.drop_left _ _
    rw [hdrop]
    simp only [breakAtChar_append '/' cfg.realm (username ++ AP) (fun a ha => (hrealm a ha).2)]
    cases hbk : breakAtChar '$' (username ++ AP) with
    | none =>
      simp only [hbk] at hda ⊢
      rw [hda]
      exact extract_plain cfg.dominoUserFormat username hne
        (fun a ha => (huser a ha).2.2.2) (fun a ha => (huser a ha).2.2.1)
    | some pr =>
      simp only [hbk] at hda ⊢
      rw [hda]
      exact extract_plain cfg.dominoUserFormat username hne
        (fun a ha => (huser a ha).2.2.2) (fun a ha => (huser a ha).2.2.1)
  have hparse : parseTokenContent cfg
        (("u:user:".data ++ (cfg.realm ++ '/' :: (username ++ AP))) ++
          '%' :: (toDecimal (now + cfg.tokenExpiration * 1000) ++ '%' :: S)) =
      some
        { username := (parseUserPart cfg.dominoUserFormat
            ("u:user:".data ++ (cfg.realm ++ '/' :: (username ++ AP)))).1,
          realm := if (parseUserPart cfg.dominoUserFormat
              ("u:user:".data ++ (cfg.realm ++ '/' :: (username ++ AP)))).2.1 = [] then
              cfg.realm
            else (parseUserPart cfg.dominoUserFormat
              ("u:user:".data ++ (cfg.realm ++ '/' :: (username ++ AP)))).2.1,
          dn := (parseUserPart cfg.dominoUserFormat
            ("u:user:".data ++ (cfg.realm ++ '/' :: (username ++ AP)))).2.2.1,
          expireTime := parseIntDec (toDecimal (now + cfg.tokenExpiration * 1000)),
          attributes := (parseUserPart cfg.dominoUserFormat
            ("u:user:".data ++ (cfg.realm ++ '/' :: (username ++ AP)))).2.2.2,
          signature := S } := by
    simp only [parseTokenContent]
    rw [hnorm, hsplit]
    rfl
  unfold validateToken
  rw [hplaus, if_pos rfl]
  rw [hparse]
  dsimp only
  rw [parseIntDec_toDecimal]
  have hexp : ltpaIsExpired now (some (now + cfg.tokenExpiration * 1000)) = false := by
    simp [ltpaIsExpired]
  rw [hexp, if_neg (by decide : ¬ (false = true))]
  dsimp only [Option.map]
  rw [hpu]

end Ltpa

open Ltpa in
/-- C8 amended: the LTPA round trip returns the original username for
every non-empty username free of the delimiter characters `%`, `$`,
`/`, `=`, any attribute map whose keys and values are free of `%`, any
realm free of `%` and `/`, and any signature function producing
delimiter-free base64-like output. -/
theorem claim8_ltpa_roundtrip_amended (cfg : LtpaConfig) (now : Nat) (username : List Char)
    (attrs : List (List Char × List Char)) (hmacSig : List Char → List Char)
    (hrealm : ∀ c ∈ cfg.realm, c ≠ '%' ∧ c ≠ '/')
    (hne : username ≠ [])
    (huser : ∀ c ∈ username, c ≠ '%' ∧ c ≠ '$' ∧ c ≠ '/' ∧ c ≠ '=')
    (hattrs : ∀ kv ∈ attrs, (∀ c ∈ kv.1, c ≠ '%') ∧ (∀ c ∈ kv.2, c ≠ '%'))
    (hsig : ∀ s, ∀ c ∈ hmacSig s, c ≠ '%' ∧ isJsSpace c = false ∧ c ≠ nulChar) :
    (validateGenerated cfg now username attrs hmacSig).map (fun p => p.username) =
      some username := by
  unfold validateGenerated
  by_cases hA : attrs = []
  · subst hA
    have hbk : breakAtChar '$' username = none :=
      breakAtChar_eq_none _ _ (fun a ha => (huser a ha).2.1)
    have hgen : generateContent cfg now username [] hmacSig =
        ("u:user:".data ++ (cfg.realm ++ '/' :: (username ++ ([] : List Char)))) ++
          '%' :: (toDecimal (now + cfg.tokenExpiration * 1000) ++
            '%' :: hmacSig (("u:user:".data ++ cfg.realm ++ '/' :: username) ++
              '%' :: toDecimal (now + cfg.tokenExpiration * 1000))) := by
      simp [generateContent, List.append_assoc]
    rw [hgen]
    exact ltpa_validate_core cfg now username [] _ hrealm hne huser (by simp)
      (by simp [hbk]) (fun c hc => hsig _ c hc)
  · have hbk : breakAtChar '$' (username ++ '$' :: joinAttrs attrs) =
        some (username, joinAttrs attrs) :=
      breakAtChar_append '$' username _ (fun a ha => (huser a ha).2.1)
    have hgen : generateContent cfg now username attrs hmacSig =
        ("u:user:".data ++ (cfg.realm ++ '/' :: (username ++ '$' :: joinAttrs attrs))) ++
          '%' :: (toDecimal (now + cfg.tokenExpiration * 1000) ++
            '%' :: hmacSig ((("u:user:".data ++ cfg.realm ++ '/' :: username) ++
                '$' :: joinAttrs attrs) ++
              '%' :: toDecimal (now + cfg.tokenExpiration * 1000))) := by
      simp [generateContent, hA, List.append_assoc]
    rw [hgen]
    refine ltpa_validate_core cfg now username ('$' :: joinAttrs attrs) _ hrealm hne huser
      ?_ (by simp [hbk]) (fun c hc => hsig _ c hc)
    intro a ha
    rcases List.mem_cons.mp ha with rfl | h2
    · decide
    · exact joinAttrs_no_pct attrs hattrs a h2

open Ltpa in
/-- C8 counterexample: the round trip fails as universally stated: for
the non-empty username `a$b` and the empty attribute map, validation of
the generated token yields username `a`, not `a$b` (the `$` is parsed
as the attribute-block delimiter). -/
theorem claim8_ltpa_roundtrip_counterexample :
    ("a$b".data : List Char) ≠ [] ∧
    (validateGenerated defaultLtpaConfig 0 ("a$b".data) [] (fun _ => "Sig".data)).map
      (fun p => p.username) = some ("a".data) ∧
    (validateGenerated defaultLtpaConfig 0 ("a$b".data) [] (fun _ => "Sig".data)).map
      (fun p => p.username) ≠ some ("a$b".data) := by
  decide

open Ltpa in
/-- C8 amended witness: instance of the amended round trip at concrete
inputs with a non-empty attribute map. -/
theorem claim8_ltpa_roundtrip_amended_witness :
    (validateGenerated defaultLtpaConfig 5 ("alice".data)
        [("role".data, "admin".data)] (fun _ => "MAC".data)).map (fun p => p.username) =
      some ("alice".data) := by
  refine claim8_ltpa_roundtrip_amended defaultLtpaConfig 5 ("alice".data)
    [("role".data, "admin".data)] (fun _ => "MAC".data) (by decide) (by decide) (by decide)
    (by decide) ?_
  intro s c hc
  exact (by decide : ∀ c ∈ ("MAC".data : List Char),
    c ≠ '%' ∧ isJsSpace c = false ∧ c ≠ nulChar) c hc

namespace Ltpa

theorem getD_append_lt {α : Type} (l l2 : List α) (n : Nat) (d : α) (h : n < l.length) :
    (l ++ l2).getD n d = l.getD n d := by
  induction l generalizing n with
  | nil => simp at h
  | cons x xs ih =>
    cases n with
    | zero => rfl
    | succ m =>
      simp only [List.cons_append, List.getD_cons_succ]
      exact ih m (by simpa using h)

theorem headD_append_left {α : Type} (l l2 : List α) (d : α) (h : l ≠ []) :
    (l ++ l2).headD d = l.headD d := by
  cases l with
  | nil => exact absurd rfl h
  | cons x xs => rfl

theorem normalize_pre_sig (pre sig : List Char)
    (hs : ∀ c ∈ sig, c ≠ '%' ∧ isJsSpace c = false ∧ c ≠ nulChar) :
    normalizeContent (pre ++ '%' :: sig) = pre.dropWhile isJsSpace ++ '%' :: sig := by
  unfold normalizeContent jsTrim
  rw [stripTrailing_append_cons _ _ '%' sig (by decide) (fun a ha => by
    apply decide_eq_false
    intro hEq
    exact (hs a ha).2.2 hEq)]
  rw [stripTrailing_append_cons _ _ '%' sig (by decide) (fun a ha => (hs a ha).2.1)]
  exact dropWhile_append_cons _ _ '%' sig (by decide)

end Ltpa

open Ltpa in
/-- C9 amended: validation is independent of the trailing signature
segment for any token content whose non-signature part alone passes the
decrypt plausibility check (it contains a `%` and either `user:` or
`=`): two contents identical except in the signature segment validate
identically; in particular a decryptable, parseable, unexpired token is
accepted even when the recomputed HMAC-SHA1 would not match.  (The
plausibility caveat is forced: an `=` appearing only inside one
signature can make `decryptToken` accept one content and reject the
other.) -/
theorem claim9_signature_independence_amended (cfg : LtpaConfig) (now : Nat)
    (pre sig1 sig2 : List Char)
    (hpct : '%' ∈ pre)
    (hchk : ("user:".data <:+: pre) ∨ '=' ∈ pre)
    (hs1 : ∀ c ∈ sig1, c ≠ '%' ∧ isJsSpace c = false ∧ c ≠ nulChar)
    (hs2 : ∀ c ∈ sig2, c ≠ '%' ∧ isJsSpace c = false ∧ c ≠ nulChar) :
    validateToken cfg now (pre ++ '%' :: sig1) = validateToken cfg now (pre ++ '%' :: sig2) := by
  have hlen : 2 ≤ (splitOnChar '%' (pre.dropWhile isJsSpace)).length :=
    two_le_splitOnChar_length '%' _
      (mem_dropWhile_of_mem isJsSpace pre '%' hpct (by decide))
  have key : ∀ sig : List Char, (∀ c ∈ sig, c ≠ '%' ∧ isJsSpace c = false ∧ c ≠ nulChar) →
      validateToken cfg now (pre ++ '%' :: sig) =
        (if ltpaIsExpired now
            (parseIntDec ((splitOnChar '%' (pre.dropWhile isJsSpace)).getD 1 [])) then
          none
        else
          some
            { username := (parseUserPart cfg.dominoUserFormat
                ((splitOnChar '%' (pre.dropWhile isJsSpace)).headD [])).1,
              realm := if (parseUserPart cfg.dominoUserFormat
                  ((splitOnChar '%' (pre.dropWhile isJsSpace)).headD [])).2.1 = [] then
                  cfg.realm
                else (parseUserPart cfg.dominoUserFormat
                  ((splitOnChar '%' (pre.dropWhile isJsSpace)).headD [])).2.1,
              dn := (parseUserPart cfg.dominoUserFormat
                ((splitOnChar '%' (pre.dropWhile isJsSpace)).headD [])).2.2.1,
              attributes := (parseUserPart cfg.dominoUserFormat
                ((splitOnChar '%' (pre.dropWhile isJsSpace)).headD [])).2.2.2,
              expireTime := parseIntDec
                ((splitOnChar '%' (pre.dropWhile isJsSpace)).getD 1 []) }) := by
    intro sig hs
    have hplaus : decryptPlausible (pre ++ '%' :: sig) = true := by
      unfold decryptPlausible
      have h1 : hasChar '%' (pre ++ '%' :: sig) = true := by
        rw [hasChar_iff]
        exact List.mem_append.mpr (Or.inr (by simp))
      rw [h1]
      rcases hchk with hinf | hmem
      · obtain ⟨s, t, hst⟩ := hinf
        have : ("user:".data <:+: pre ++ '%' :: sig) :=
          ⟨s, t ++ '%' :: sig, by rw [← hst]; simp⟩
        rw [decide_eq_true this]
        rfl
      · have : hasChar '=' (pre ++ '%' :: sig) = true := by
          rw [hasChar_iff]
          exact List.mem_append.mpr (Or.inl hmem)
        rw [this]
        simp
    have hsplit : splitOnChar '%' (pre.dropWhile isJsSpace ++ '%' :: sig) =
        splitOnChar '%' (pre.dropWhile isJsSpace) ++ [sig] := by
      rw [splitOnChar_append_sep,
        splitOnChar_eq_single '%' sig (fun a ha => (hs a ha).1)]
    have hparse : parseTokenContent cfg (pre ++ '%' :: sig) =
        some
          { username := (parseUserPart cfg.dominoUserFormat
              ((splitOnChar '%' (pre.dropWhile isJsSpace)).headD [])).1,
            realm := if (parseUserPart cfg.dominoUserFormat
                ((splitOnChar '%' (pre.dropWhile isJsSpace)).headD [])).2.1 = [] then
                cfg.realm
              else (parseUserPart cfg.dominoUserFormat
                ((splitOnChar '%' (pre.dropWhile isJsSpace)).headD [])).2.1,
            dn := (parseUserPart cfg.dominoUserFormat
              ((splitOnChar '%' (pre.dropWhile isJsSpace)).headD [])).2.2.1,
            expireTime := parseIntDec
              ((splitOnChar '%' (pre.dropWhile isJsSpace)).getD 1 []),
            attributes := (parseUserPart cfg.dominoUserFormat
              ((splitOnChar '%' (pre.dropWhile isJsSpace)).headD [])).2.2.2,
            signature := (splitOnChar '%' (pre.dropWhile isJsSpace) ++ [sig]).getD 2 [] } := by
      simp only [parseTokenContent]
      rw [normalize_pre_sig pre sig hs, hsplit]
      rw [if_neg (by
        simp only [List.length_append, List.length_cons, List.length_nil]
        omega)]
      rw [headD_append_left _ _ _ (splitOnChar_ne_nil '%' _),
        getD_append_lt _ _ 1 [] (by omega)]
    unfold validateToken
    rw [hplaus, if_pos rfl, hparse]
  rw [key sig1 hs1, key sig2 hs2]

open Ltpa in
/-- C9 counterexample: as universally stated over all tokens the claim
fails: the contents `x%5%a=` and `x%5%aa` are identical except in the
trailing signature segment, yet the first validates to a principal
while the second is rejected, because the `=` inside the first
signature is what lets the decrypt plausibility check pass. -/
theorem claim9_signature_independence_counterexample :
    ('%' ∈ ("x%5".data : List Char)) ∧
    (∀ c ∈ ("a=".data : List Char), c ≠ '%' ∧ isJsSpace c = false ∧ c ≠ nulChar) ∧
    (∀ c ∈ ("aa".data : List Char), c ≠ '%' ∧ isJsSpace c = false ∧ c ≠ nulChar) ∧
    validateToken defaultLtpaConfig 0 ("x%5".data ++ '%' :: "a=".data) ≠
      validateToken defaultLtpaConfig 0 ("x%5".data ++ '%' :: "aa".data) := by
  decide

open Ltpa in
/-- C9 amended witness: instance of signature independence on a
well-formed token content with two different signatures. -/
theorem claim9_signature_independence_amended_witness :
    validateToken defaultLtpaConfig 0 ("u:user:defaultRealm/bob%5000".data ++ '%' :: "AAA".data) =
      validateToken defaultLtpaConfig 0
        ("u:user:defaultRealm/bob%5000".data ++ '%' :: "BBB".data) := by
  exact claim9_signature_independence_amended defaultLtpaConfig 0
    ("u:user:defaultRealm/bob%5000".data) ("AAA".data) ("BBB".data)
    (by decide) (Or.inl (by decide)) (by decide) (by decide)

open Ldap in
/-- C10 amended: full characterisation of authenticate.  It returns a
principal exactly when the password is non-empty, the service bind
succeeds, the search returns at least one matching entry, and the user
bind as the FIRST matched entry's DN succeeds; the principal is built
from that first entry.  An empty password, zero matches, or a failed
user bind give nil; a failed service bind is an error; multiple matches
are not rejected — the first entry is used. -/
theorem claim10_ldap_first_match_amended (adminGroup : String) (serviceBindOk : Bool)
    (bindOk : String → String → Bool) (entries : List Ldap.LdapEntry) (password : String) :
    (password = "" →
      authenticate adminGroup serviceBindOk bindOk entries password = .ok none) ∧
    (password ≠ "" → serviceBindOk = false →
      authenticate adminGroup serviceBindOk bindOk entries password =
        .error "service bind failed") ∧
    (password ≠ "" → serviceBindOk = true → entries.head? = none →
      authenticate adminGroup serviceBindOk bindOk entries password = .ok none) ∧
    (∀ u, password ≠ "" → serviceBindOk = true → entries.head? = some u →
      (bindOk u.dn password = false →
        authenticate adminGroup serviceBindOk bindOk entries password = .ok none) ∧
      (bindOk u.dn password = true →
        authenticate adminGroup serviceBindOk bindOk entries password =
          .ok (some
            { username := u.username, displayName := u.displayName,
              role := if u.memberOf.any (fun g =>
                  strIncludes (strToLower adminGroup) (strToLower g)) then "admin"
                else "user",
              ldapDN := u.dn, groups := u.memberOf }))) := by
  unfold authenticate searchUser
  refine ⟨?_, ?_, ?_, ?_⟩
  · intro h
    rw [if_pos h]
  · intro h1 h2
    rw [if_neg h1, h2]
    rfl
  · intro h1 h2 h3
    rw [if_neg h1, h2, h3]
    rfl
  · intro u h1 h2 h3
    constructor
    · intro hb
      rw [if_neg h1, h2, h3]
      show (if bindOk u.dn password = true then _ else _) = _
      rw [hb, if_neg (by decide : ¬ (false = true))]
    · intro hb
      rw [if_neg h1, h2, h3]
      show (if bindOk u.dn password = true then _ else _) = _
      rw [hb, if_pos rfl]

open Ldap in
/-- C10 counterexample: with two directory entries matching the search
and a succeeding user bind, authenticate returns a principal built from
the first entry instead of the nil the claim requires for multiple
matches. -/
theorem claim10_ldap_multiple_matches_counterexample :
    ([({ dn := "cn=alice,o=a", username := "alice", email := none,
         displayName := "Alice A", memberOf := ["staff"] } : Ldap.LdapEntry),
      { dn := "cn=alice,o=b", username := "alice2", email := none,
        displayName := "Alice B", memberOf := [] }].length = 2) ∧
    authenticate "admins" true (fun _ _ => true)
      [{ dn := "cn=alice,o=a", username := "alice", email := none,
         displayName := "Alice A", memberOf := ["staff"] },
       { dn := "cn=alice,o=b", username := "alice2", email := none,
         displayName := "Alice B", memberOf := [] }] "pw" =
      .ok (some { username := "alice", displayName := "Alice A", role := "user",
                  ldapDN := "cn=alice,o=a", groups := ["staff"] }) ∧
    authenticate "admins" true (fun _ _ => true)
      [{ dn := "cn=alice,o=a", username := "alice", email := none,
         displayName := "Alice A", memberOf := ["staff"] },
       { dn := "cn=alice,o=b", username := "alice2", email := none,
         displayName := "Alice B", memberOf := [] }] "pw" ≠ .ok none := by
  refine ⟨by decide, rfl, ?_⟩
  intro h
  rw [show authenticate "admins" true (fun _ _ => true)
      [{ dn := "cn=alice,o=a", username := "alice", email := none,
         displayName := "Alice A", memberOf := ["staff"] },
       { dn := "cn=alice,o=b", username := "alice2", email := none,
         displayName := "Alice B", memberOf := [] }] "pw" =
      .ok (some { username := "alice", displayName := "Alice A", role := "user",
                  ldapDN := "cn=alice,o=a", groups := ["staff"] }) from rfl] at h
  injection h with h2
  cases h2

open Ldap in
/-- C10 amended witness: the characterisation applied at a concrete
one-match directory with a succeeding bind. -/
theorem claim10_ldap_first_match_amended_witness :
    authenticate "admins" true (fun d pw => d = "cn=bob,o=a" && pw = "s3cret")
      [{ dn := "cn=bob,o=a", username := "bob", email := none,
         displayName := "Bob", memberOf := [] }] "s3cret" =
      .ok (some { username := "bob", displayName := "Bob", role := "user",
                  ldapDN := "cn=bob,o=a", groups := [] }) := by
  have h := (claim10_ldap_first_match_amended "admins" true
    (fun d pw => d = "cn=bob,o=a" && pw = "s3cret")
    [{ dn := "cn=bob,o=a", username := "bob", email := none,
       displayName := "Bob", memberOf := [] }] "s3cret").2.2.2
    { dn := "cn=bob,o=a", username := "bob", email := none,
      displayName := "Bob", memberOf := [] } (by decide) rfl rfl
  exact h.2 (by decide)
